import Mathlib

/-!
Verification of the air-quality dashboard (`src/dashboard/dasboard.py`).

The dashboard loads two station datasets (CO readings and temperature
readings), each row carrying integer `year`, `month`, `day`, `hour`
fields and numeric measurement columns `CO` and `TEMP`.  A derived
`datetime` column is added at load time; the user picks an inclusive
date range; both datasets are filtered by the calendar date of their
`datetime`; groupby aggregates and summary metrics are computed over
the filtered rows.

Modelling decisions:
* a measurement value is `Option ℚ`; `none` stands for a missing value
  (pandas `NaN`), and aggregate results that pandas reports as `NaN`
  (mean/min/max over an empty or all-missing column) are `none`;
* the calendar date extracted from the derived `datetime` is exactly
  the `(year, month, day)` triple of the row, ordered chronologically,
  which on calendar data coincides with lexicographic order;
* a pandas boolean-mask row selection is `List.filter` (order and
  multiplicity preserved);
* `groupby` enumerates the distinct keys in ascending order (pandas
  default `sort=True`) and aggregates the group of rows of each key.
-/

namespace Dashboard

/-- Calendar date, the value of `row['datetime'].date()`. -/
structure Date where
  year : ℕ
  month : ℕ
  day : ℕ
deriving DecidableEq, Repr

/-- Chronological comparison of dates.  On calendar data the order of
the `datetime` values produced by `pd.to_datetime` restricted to dates
is lexicographic on `(year, month, day)`. -/
def Date.ble (a b : Date) : Bool :=
  if a.year < b.year then true
  else if b.year < a.year then false
  else if a.month < b.month then true
  else if b.month < a.month then false
  else decide (a.day ≤ b.day)

theorem Date.ble_iff (a b : Date) :
    a.ble b = true ↔
      (a.year < b.year ∨ (a.year = b.year ∧
        (a.month < b.month ∨ (a.month = b.month ∧ a.day ≤ b.day)))) := by
  unfold Date.ble
  split_ifs with h1 h2 h3 h4 <;> simp <;> omega

theorem Date.ble_refl (a : Date) : a.ble a = true := by
  rw [Date.ble_iff]; omega

theorem Date.ble_trans {a b c : Date} (h1 : a.ble b = true)
    (h2 : b.ble c = true) : a.ble c = true := by
  rw [Date.ble_iff] at *; omega

theorem Date.ble_total (a b : Date) : a.ble b = true ∨ b.ble a = true := by
  rw [Date.ble_iff, Date.ble_iff]; omega

theorem Date.ble_antisymm {a b : Date} (h1 : a.ble b = true)
    (h2 : b.ble a = true) : a = b := by
  rw [Date.ble_iff] at *
  have hy : a.year = b.year := by omega
  have hm : a.month = b.month := by omega
  have hd : a.day = b.day := by omega
  cases a; cases b; simp_all

theorem Date.ble_false {a b : Date} (h : a.ble b = false) :
    b.ble a = true := by
  rcases Date.ble_total a b with h' | h'
  · rw [h] at h'; cases h'
  · exact h'

/-- The chronological order on dates as a relation, used for sorting. -/
def dateLE (a b : Date) : Prop := a.ble b = true

instance : DecidableRel dateLE := fun _ _ =>
  inferInstanceAs (Decidable (_ = true))

instance : IsTotal Date dateLE := ⟨Date.ble_total⟩

instance : IsTrans Date dateLE := ⟨fun _ _ _ => Date.ble_trans⟩

/-- One observation row.  The source CSV columns `year`, `month`,
`day`, `hour` are integers; the measured variables `CO` and `TEMP`
are numeric with possible missing values. -/
structure Row where
  year : ℕ
  month : ℕ
  day : ℕ
  hour : ℕ
  co : Option ℚ
  temp : Option ℚ
deriving DecidableEq, Repr

/-- The calendar date of the row's derived `datetime`
(`row['datetime'].dt.date`): `pd.to_datetime` composes the four
integer fields, so the date component is `(year, month, day)`. -/
def Row.date (r : Row) : Date := ⟨r.year, r.month, r.day⟩

/-- A measured variable of the dashboard. -/
inductive Var where
  | CO
  | TEMP
deriving DecidableEq, Repr

/-- Column access `row[variable]`. -/
def Row.val (v : Var) (r : Row) : Option ℚ :=
  match v with
  | Var.CO => r.co
  | Var.TEMP => r.temp

/-- `filtered = data[(data['datetime'].dt.date >= a) & (data['datetime'].dt.date <= b)]`:
the boolean-mask selection keeps, in order, exactly the rows whose
date lies in the inclusive range. -/
def filterByDate (rows : List Row) (a b : Date) : List Row :=
  rows.filter (fun r => a.ble r.date && (r.date).ble b)

/-- The non-missing values of a column, in row order
(pandas aggregations skip `NaN`). -/
def colVals (v : Var) (rows : List Row) : List ℚ :=
  rows.filterMap (Row.val v)

/-- `Series.mean()`: arithmetic mean of the non-missing values,
`NaN` (here `none`) when there are none. -/
def meanQ (xs : List ℚ) : Option ℚ :=
  if xs.isEmpty then none else some (xs.sum / xs.length)

/-- `Series.max()`: maximum of the non-missing values, `NaN` when none. -/
def maxQ : List ℚ → Option ℚ
  | [] => none
  | x :: xs =>
    some (match maxQ xs with
          | none => x
          | some m => max x m)

/-- `Series.min()`: minimum of the non-missing values, `NaN` when none. -/
def minQ : List ℚ → Option ℚ
  | [] => none
  | x :: xs =>
    some (match minQ xs with
          | none => x
          | some m => min x m)

/-- The distinct dates of the rows, ascending: the group keys of
`groupby(data['datetime'].dt.date)` (pandas sorts keys). -/
def sortedDatesOf (rows : List Row) : List Date :=
  List.insertionSort dateLE ((rows.map Row.date).dedup)

/-- The distinct `hour` values of the rows, ascending: the group keys
of `groupby('hour')` (pandas sorts keys). -/
def sortedHoursOf (rows : List Row) : List ℕ :=
  List.insertionSort (· ≤ ·) ((rows.map Row.hour).dedup)

/-- The group of rows sharing a calendar date, in source order. -/
def dateGroup (rows : List Row) (d : Date) : List Row :=
  rows.filter (fun r => r.date == d)

/-- The group of rows sharing an `hour` value, in source order. -/
def hourGroup (rows : List Row) (h : ℕ) : List Row :=
  rows.filter (fun r => r.hour == h)

/-- `filtered.groupby(filtered['datetime'].dt.date)[v].mean()`:
one entry per distinct date, ascending, carrying the group mean. -/
def daily_mean (v : Var) (rows : List Row) : List (Date × Option ℚ) :=
  (sortedDatesOf rows).map (fun d => (d, meanQ (colVals v (dateGroup rows d))))

/-- `filtered.groupby('hour')[v].mean()`: one entry per distinct hour,
ascending, carrying the group mean. -/
def hourly_mean (v : Var) (rows : List Row) : List (ℕ × Option ℚ) :=
  (sortedHoursOf rows).map (fun h => (h, meanQ (colVals v (hourGroup rows h))))

/-- `filtered.groupby('hour')[v].nunique()`: one entry per distinct
hour, ascending, counting the distinct non-missing values of `v`. -/
def hourly_distinct_count (v : Var) (rows : List Row) : List (ℕ × ℕ) :=
  (sortedHoursOf rows).map
    (fun h => (h, ((colVals v (hourGroup rows h)).dedup).length))

/-- Summary statistics of a variable over the filtered rows, the data
behind the three `st.metric` widgets of that variable.  `none` stands
for the `NaN` that pandas produces when the filtered column is empty:
the explicit no-data signal (no exception, no numeric zero). -/
structure Stats where
  mean : Option ℚ
  min : Option ℚ
  max : Option ℚ
deriving DecidableEq, Repr

/-- `{mean, min, max}` of the non-missing values of `v`. -/
def summary (v : Var) (rows : List Row) : Stats :=
  ⟨meanQ (colVals v rows), minQ (colVals v rows), maxQ (colVals v rows)⟩

/-- The earlier of two dates. -/
def dateMin (a b : Date) : Date := if a.ble b then a else b

/-- The later of two dates. -/
def dateMax (a b : Date) : Date := if a.ble b then b else a

/-- `data['datetime'].min().date()`: the earliest calendar date of the
rows (`none` for an empty dataset).  The minimum of the `datetime`
column has the minimal date, since the hour never moves a timestamp
across a date boundary. -/
def minDate : List Row → Option Date
  | [] => none
  | r :: rs =>
    some (match minDate rs with
          | none => r.date
          | some d => dateMin r.date d)

/-- `data['datetime'].max().date()`: the latest calendar date. -/
def maxDate : List Row → Option Date
  | [] => none
  | r :: rs =>
    some (match maxDate rs with
          | none => r.date
          | some d => dateMax r.date d)

/-- A raw CSV table as seen by `load_data` before validation: its
column names and, when the schema is valid, its parsed observation
rows. -/
structure RawTable where
  cols : List String
  rows : List Row

/-- The temporal columns `load_data` requires of each table. -/
def requiredCols : List String := ["year", "month", "day", "hour"]

/-- `all(col in data.columns for col in ['year', 'month', 'day', 'hour'])`. -/
def hasRequired (t : RawTable) : Bool :=
  requiredCols.all (fun c => t.cols.contains c)

/-- The single fixed message of `st.error` in `load_data`; it names no
dataset. -/
def schemaErrorMsg : String :=
  "Required columns (year, month, day, hour) are not present in one of the datasets."

/-- `load_data`: validates the two tables in order (CO first, then
temperature); on the first table missing a required column it reports
`schemaErrorMsg` and stops (`st.stop`), otherwise both datasets are
returned with the derived `datetime` column (carried by `Row.date`). -/
def load_data (co temp : RawTable) : Except String (List Row × List Row) :=
  if hasRequired co then
    if hasRequired temp then Except.ok (co.rows, temp.rows)
    else Except.error schemaErrorMsg
  else Except.error schemaErrorMsg

/-- Everything `main` computes downstream of `load_data` for one date
range: the two hourly charts, the six summary metrics and the two
daily-mean trend series. -/
structure DashboardView where
  coDistinct : List (ℕ × ℕ)
  tempHourlyMean : List (ℕ × Option ℚ)
  coStats : Stats
  tempStats : Stats
  dailyCO : List (Date × Option ℚ)
  dailyTemp : List (Date × Option ℚ)
deriving DecidableEq, Repr

/-- The aggregation pipeline of `main` after a successful load. -/
def render (co temp : List Row) (a b : Date) : DashboardView :=
  let fco := filterByDate co a b
  let ftemp := filterByDate temp a b
  { coDistinct := hourly_distinct_count Var.CO fco
    tempHourlyMean := hourly_mean Var.TEMP ftemp
    coStats := summary Var.CO fco
    tempStats := summary Var.TEMP ftemp
    dailyCO := daily_mean Var.CO fco
    dailyTemp := daily_mean Var.TEMP ftemp }

/-- `main` end to end: load, then (only on success) filter both
datasets by the chosen range and aggregate. -/
def runDashboard (co temp : RawTable) (a b : Date) :
    Except String DashboardView :=
  match load_data co temp with
  | Except.error e => Except.error e
  | Except.ok (c, t) => Except.ok (render c t a b)

/-- `f"{x:.2f}"` on an exact value: rounding to two decimal places. -/
def round2 (q : ℚ) : ℚ := (round (q * 100) : ℤ) / 100

/-- The six metric values as displayed by `st.metric` (lines 100-117):
the CO mean is formatted `:.2f`, the CO max and min are passed raw,
and the temperature mean, max and min are all formatted `:.2f`. -/
structure DisplayedStats where
  coMean : Option ℚ
  coMax : Option ℚ
  coMin : Option ℚ
  tempMean : Option ℚ
  tempMax : Option ℚ
  tempMin : Option ℚ
deriving DecidableEq, Repr

/-- The displayed statistics computed from the filtered datasets. -/
def displayedStats (fco ftemp : List Row) : DisplayedStats :=
  { coMean := (meanQ (colVals Var.CO fco)).map round2
    coMax := maxQ (colVals Var.CO fco)
    coMin := minQ (colVals Var.CO fco)
    tempMean := (meanQ (colVals Var.TEMP ftemp)).map round2
    tempMax := (maxQ (colVals Var.TEMP ftemp)).map round2
    tempMin := (minQ (colVals Var.TEMP ftemp)).map round2 }

/-- The date-picker configuration of `main` (lines 36-41): the default
range and the selectable `min_value`/`max_value` all come from the CO
dataset's `datetime` span; the temperature dataset is not consulted. -/
def pickerBounds (co _temp : List Row) : Option (Date × Date) :=
  match minDate co, maxDate co with
  | some lo, some hi => some (lo, hi)
  | _, _ => none

/-! ### Sample data

Concrete rows used by the witnesses and counterexamples.  `exRows`
realises the worked example of the spec: `hour` values `[0, 0, 1]`
with `CO` values `[1, 3, 5]`. -/

def row1 : Row := ⟨2013, 3, 1, 0, some 1, none⟩

def row2 : Row := ⟨2013, 3, 1, 0, some 3, none⟩

def row3 : Row := ⟨2013, 3, 2, 1, some 5, some 2⟩

def exRows : List Row := [row1, row2, row3]

/-- A temperature row whose `TEMP` value `1.234` needs more than two
decimal places. -/
def tempRow : Row := ⟨2013, 3, 1, 0, none, some (617 / 500)⟩

/-- A temperature row timestamped outside the CO span of `exRows`. -/
def outRow : Row := ⟨2014, 5, 1, 0, none, some 10⟩

/-- A schema-valid raw table. -/
def goodTable : RawTable :=
  ⟨["No", "year", "month", "day", "hour", "CO", "TEMP"], exRows⟩

/-- A raw table missing the required `hour` column. -/
def noHourTable : RawTable := ⟨["No", "year", "month", "day", "CO"], []⟩

/-! ### Helper lemmas -/

theorem mem_filterByDate {rows : List Row} {a b : Date} {r : Row} :
    r ∈ filterByDate rows a b ↔
      r ∈ rows ∧ a.ble r.date = true ∧ (r.date).ble b = true := by
  simp [filterByDate, List.mem_filter]

theorem minQ_eq_none {xs : List ℚ} : minQ xs = none ↔ xs = [] := by
  cases xs <;> simp [minQ]

theorem maxQ_eq_none {xs : List ℚ} : maxQ xs = none ↔ xs = [] := by
  cases xs <;> simp [maxQ]

theorem minQ_le {xs : List ℚ} : ∀ {lo : ℚ}, minQ xs = some lo →
    ∀ x ∈ xs, lo ≤ x := by
  induction xs with
  | nil => intro lo h; simp [minQ] at h
  | cons x xs ih =>
    intro lo h y hy
    rw [minQ] at h
    cases hxs : minQ xs with
    | none =>
      have hnil : xs = [] := minQ_eq_none.mp hxs
      subst hnil
      simp only [List.mem_singleton] at hy
      simp [hxs] at h
      subst hy; rw [← h]
    | some m =>
      rw [hxs] at h
      simp only [Option.some.injEq] at h
      rcases List.mem_cons.mp hy with rfl | hy'
      · rw [← h]; exact min_le_left _ _
      · exact le_trans (show lo ≤ m by rw [← h]; exact min_le_right x m)
          (ih hxs y hy')

theorem le_maxQ {xs : List ℚ} : ∀ {hi : ℚ}, maxQ xs = some hi →
    ∀ x ∈ xs, x ≤ hi := by
  induction xs with
  | nil => intro hi h; simp [maxQ] at h
  | cons x xs ih =>
    intro hi h y hy
    rw [maxQ] at h
    cases hxs : maxQ xs with
    | none =>
      have hnil : xs = [] := maxQ_eq_none.mp hxs
      subst hnil
      simp only [List.mem_singleton] at hy
      simp [hxs] at h
      subst hy; rw [← h]
    | some m =>
      rw [hxs] at h
      simp only [Option.some.injEq] at h
      rcases List.mem_cons.mp hy with rfl | hy'
      · rw [← h]; exact le_max_left _ _
      · exact le_trans (ih hxs y hy')
          (show m ≤ hi by rw [← h]; exact le_max_right x m)

theorem length_mul_le_sum {xs : List ℚ} {lo : ℚ} (h : ∀ x ∈ xs, lo ≤ x) :
    (xs.length : ℚ) * lo ≤ xs.sum := by
  induction xs with
  | nil => simp
  | cons x xs ih =>
    have h1 := h x (by simp)
    have h2 := ih (fun y hy => h y (by simp [hy]))
    simp only [List.sum_cons, List.length_cons]
    push_cast
    nlinarith

theorem sum_le_length_mul {xs : List ℚ} {hi : ℚ} (h : ∀ x ∈ xs, x ≤ hi) :
    xs.sum ≤ (xs.length : ℚ) * hi := by
  induction xs with
  | nil => simp
  | cons x xs ih =>
    have h1 := h x (by simp)
    have h2 := ih (fun y hy => h y (by simp [hy]))
    simp only [List.sum_cons, List.length_cons]
    push_cast
    nlinarith

/-- The mean of a nonempty list lies between any lower bound of its
elements and any upper bound. -/
theorem meanQ_bounds {xs : List ℚ} {m lo hi : ℚ} (hm : meanQ xs = some m)
    (hlo : ∀ x ∈ xs, lo ≤ x) (hhi : ∀ x ∈ xs, x ≤ hi) :
    lo ≤ m ∧ m ≤ hi := by
  rw [meanQ] at hm
  split at hm
  · cases hm
  · rename_i hne
    simp only [Option.some.injEq] at hm
    have hpos : (0 : ℚ) < xs.length := by
      have : xs ≠ [] := by simpa [List.isEmpty_iff] using hne
      have : 0 < xs.length := List.length_pos.mpr this
      exact_mod_cast this
    constructor
    · rw [← hm, le_div_iff₀ hpos]
      calc lo * (xs.length : ℚ) = (xs.length : ℚ) * lo := by ring
        _ ≤ xs.sum := length_mul_le_sum hlo
    · rw [← hm, div_le_iff₀ hpos]
      calc xs.sum ≤ (xs.length : ℚ) * hi := sum_le_length_mul hhi
        _ = hi * (xs.length : ℚ) := by ring

theorem dateMin_ble_left (a b : Date) : (dateMin a b).ble a = true := by
  unfold dateMin
  split
  · exact Date.ble_refl a
  · rename_i h
    exact Date.ble_false (Bool.eq_false_iff.mpr h)

theorem dateMin_ble_right (a b : Date) : (dateMin a b).ble b = true := by
  unfold dateMin
  split
  · assumption
  · exact Date.ble_refl b

theorem ble_dateMax_left (a b : Date) : a.ble (dateMax a b) = true := by
  unfold dateMax
  split
  · assumption
  · rename_i h
    exact Date.ble_refl a

theorem ble_dateMax_right (a b : Date) : b.ble (dateMax a b) = true := by
  unfold dateMax
  split
  · exact Date.ble_refl b
  · rename_i h
    exact Date.ble_false (Bool.eq_false_iff.mpr h)

theorem minDate_eq_none {rows : List Row} : minDate rows = none ↔ rows = [] := by
  cases rows <;> simp [minDate]

theorem maxDate_eq_none {rows : List Row} : maxDate rows = none ↔ rows = [] := by
  cases rows <;> simp [maxDate]

theorem minDate_ble {rows : List Row} : ∀ {lo : Date}, minDate rows = some lo →
    ∀ r ∈ rows, lo.ble r.date = true := by
  induction rows with
  | nil => intro lo h; simp [minDate] at h
  | cons r rs ih =>
    intro lo h s hs
    rw [minDate] at h
    cases hrs : minDate rs with
    | none =>
      have hnil : rs = [] := minDate_eq_none.mp hrs
      subst hnil
      simp only [List.mem_singleton] at hs
      simp [hrs] at h
      subst hs; rw [← h]; exact Date.ble_refl _
    | some d =>
      rw [hrs] at h
      simp only [Option.some.injEq] at h
      rcases List.mem_cons.mp hs with rfl | hs'
      · rw [← h]; exact dateMin_ble_left _ _
      · exact Date.ble_trans
          (show lo.ble d = true by rw [← h]; exact dateMin_ble_right r.date d)
          (ih hrs s hs')

theorem ble_maxDate {rows : List Row} : ∀ {hi : Date}, maxDate rows = some hi →
    ∀ r ∈ rows, (r.date).ble hi = true := by
  induction rows with
  | nil => intro hi h; simp [maxDate] at h
  | cons r rs ih =>
    intro hi h s hs
    rw [maxDate] at h
    cases hrs : maxDate rs with
    | none =>
      have hnil : rs = [] := maxDate_eq_none.mp hrs
      subst hnil
      simp only [List.mem_singleton] at hs
      simp [hrs] at h
      subst hs; rw [← h]; exact Date.ble_refl _
    | some d =>
      rw [hrs] at h
      simp only [Option.some.injEq] at h
      rcases List.mem_cons.mp hs with rfl | hs'
      · rw [← h]; exact ble_dateMax_left _ _
      · exact Date.ble_trans (ih hrs s hs')
          (show d.ble hi = true by rw [← h]; exact ble_dateMax_right r.date d)

theorem mem_sortedDatesOf {rows : List Row} {d : Date} :
    d ∈ sortedDatesOf rows ↔ ∃ r ∈ rows, r.date = d := by
  rw [sortedDatesOf, (List.perm_insertionSort dateLE _).mem_iff,
    List.mem_dedup, List.mem_map]

theorem nodup_sortedDatesOf (rows : List Row) : (sortedDatesOf rows).Nodup :=
  (List.perm_insertionSort dateLE _).symm.nodup (List.nodup_dedup _)

theorem sorted_sortedDatesOf (rows : List Row) :
    List.Sorted dateLE (sortedDatesOf rows) :=
  List.sorted_insertionSort dateLE _

theorem mem_sortedHoursOf {rows : List Row} {h : ℕ} :
    h ∈ sortedHoursOf rows ↔ ∃ r ∈ rows, r.hour = h := by
  rw [sortedHoursOf, (List.perm_insertionSort _ _).mem_iff,
    List.mem_dedup, List.mem_map]

/-- Membership in a key-to-aggregate mapping. -/
theorem mem_map_pair {α β : Type} {ks : List α} {f : α → β} {k : α} {y : β} :
    (k, y) ∈ ks.map (fun x => (x, f x)) ↔ k ∈ ks ∧ y = f k := by
  constructor
  · intro hm
    rcases List.mem_map.mp hm with ⟨x, hx, hxy⟩
    cases hxy
    exact ⟨hx, rfl⟩
  · rintro ⟨hk, rfl⟩
    exact List.mem_map.mpr ⟨k, hk, rfl⟩

theorem length_dateGroup (rows : List Row) (d : Date) :
    (dateGroup rows d).length = (rows.map Row.date).count d := by
  induction rows with
  | nil => simp [dateGroup]
  | cons r rs ih =>
    by_cases h : r.date = d
    · simp [dateGroup, List.filter_cons, List.count_cons, h] at *
      omega
    · simp [dateGroup, List.filter_cons, List.count_cons, h, Ne.symm h] at *
      exact ih

/-- The group sizes over the distinct dates sum to the number of rows. -/
theorem sum_group_lengths (rows : List Row) :
    ((sortedDatesOf rows).map (fun d => (dateGroup rows d).length)).sum
      = rows.length := by
  have hperm : List.Perm
      ((sortedDatesOf rows).map (fun d => (dateGroup rows d).length))
      (((rows.map Row.date).dedup).map (fun d => (dateGroup rows d).length)) :=
    (List.perm_insertionSort dateLE _).map _
  rw [hperm.sum_eq]
  have : ((rows.map Row.date).dedup).map (fun d => (dateGroup rows d).length)
      = ((rows.map Row.date).dedup).map (fun d => (rows.map Row.date).count d) :=
    List.map_congr_left (fun d _ => length_dateGroup rows d)
  rw [this, List.sum_map_count_dedup_eq_length, List.length_map]

/-! ### The claims -/

/-- C1: for every dataset and every date range `[a, b]` with `a ≤ b`,
the filter returns exactly the subsequence of rows whose `datetime`'s
calendar date lies within `[a, b]` inclusive: the result is a
subsequence of the dataset, every returned row's date is in range, and
every row of the dataset whose date is in range is returned. -/
theorem filter_returns_exact_range (ds : List Row) (a b : Date)
    (_hab : a.ble b = true) :
    (filterByDate ds a b).Sublist ds ∧
    (∀ r ∈ filterByDate ds a b,
        a.ble r.date = true ∧ (r.date).ble b = true) ∧
    (∀ r ∈ ds, a.ble r.date = true → (r.date).ble b = true →
        r ∈ filterByDate ds a b) := by
  refine ⟨List.filter_sublist _, ?_, ?_⟩
  · intro r hr
    exact (mem_filterByDate.mp hr).2
  · intro r hr h1 h2
    exact mem_filterByDate.mpr ⟨hr, h1, h2⟩

/-- Witness for C1 at a concrete dataset and range. -/
theorem filter_returns_exact_range_witness :
    Date.ble ⟨2013, 3, 1⟩ ⟨2013, 3, 2⟩ = true ∧
    ((filterByDate exRows ⟨2013, 3, 1⟩ ⟨2013, 3, 2⟩).Sublist exRows ∧
     (∀ r ∈ filterByDate exRows ⟨2013, 3, 1⟩ ⟨2013, 3, 2⟩,
        Date.ble ⟨2013, 3, 1⟩ r.date = true ∧
        Date.ble r.date ⟨2013, 3, 2⟩ = true) ∧
     (∀ r ∈ exRows, Date.ble ⟨2013, 3, 1⟩ r.date = true →
        Date.ble r.date ⟨2013, 3, 2⟩ = true →
        r ∈ filterByDate exRows ⟨2013, 3, 1⟩ ⟨2013, 3, 2⟩)) :=
  ⟨by decide,
   filter_returns_exact_range exRows ⟨2013, 3, 1⟩ ⟨2013, 3, 2⟩ (by decide)⟩

/-- C2: the summary of an empty filtered dataset is the explicit
no-data signal (pandas' `NaN`, modelled as `none`): none of the three
statistics is a numeric value, in particular none is `0`, and the
computation is total (no exception). -/
theorem summary_empty_no_data (v : Var) (ds : List Row) (a b : Date)
    (h : filterByDate ds a b = []) :
    summary v (filterByDate ds a b) = ⟨none, none, none⟩ ∧
    (summary v (filterByDate ds a b)).mean ≠ some 0 ∧
    (summary v (filterByDate ds a b)).min ≠ some 0 ∧
    (summary v (filterByDate ds a b)).max ≠ some 0 := by
  rw [h]
  refine ⟨rfl, ?_, ?_, ?_⟩ <;> simp [summary, colVals, meanQ, minQ, maxQ]

/-- Witness for C2 at a concrete dataset and an empty filter result. -/
theorem summary_empty_no_data_witness :
    filterByDate exRows ⟨2014, 1, 1⟩ ⟨2014, 12, 31⟩ = [] ∧
    summary Var.CO (filterByDate exRows ⟨2014, 1, 1⟩ ⟨2014, 12, 31⟩)
      = ⟨none, none, none⟩ :=
  ⟨by decide,
   (summary_empty_no_data Var.CO exRows ⟨2014, 1, 1⟩ ⟨2014, 12, 31⟩
      (by decide)).1⟩

/-- C4: filtering is idempotent, and filtering a dataset by the full
span of its own timestamps returns it unchanged row-for-row. -/
theorem filter_idempotent_full_span (ds : List Row) (a b : Date)
    (_hab : a.ble b = true) :
    filterByDate (filterByDate ds a b) a b = filterByDate ds a b ∧
    (∀ lo hi, minDate ds = some lo → maxDate ds = some hi →
        filterByDate ds lo hi = ds) := by
  constructor
  · rw [filterByDate, filterByDate, List.filter_filter]
    exact List.filter_congr (fun r _ => Bool.and_self _)
  · intro lo hi hlo hhi
    rw [filterByDate, List.filter_eq_self]
    intro r hr
    rw [Bool.and_eq_true]
    exact ⟨minDate_ble hlo r hr, ble_maxDate hhi r hr⟩

/-- Witness for C4 at a concrete dataset and its full span. -/
theorem filter_idempotent_full_span_witness :
    Date.ble ⟨2013, 3, 1⟩ ⟨2013, 3, 2⟩ = true ∧
    filterByDate (filterByDate exRows ⟨2013, 3, 1⟩ ⟨2013, 3, 2⟩)
        ⟨2013, 3, 1⟩ ⟨2013, 3, 2⟩
      = filterByDate exRows ⟨2013, 3, 1⟩ ⟨2013, 3, 2⟩ ∧
    minDate exRows = some ⟨2013, 3, 1⟩ ∧
    maxDate exRows = some ⟨2013, 3, 2⟩ ∧
    filterByDate exRows ⟨2013, 3, 1⟩ ⟨2013, 3, 2⟩ = exRows :=
  ⟨by decide,
   (filter_idempotent_full_span exRows ⟨2013, 3, 1⟩ ⟨2013, 3, 2⟩
      (by decide)).1,
   by decide, by decide,
   (filter_idempotent_full_span exRows ⟨2013, 3, 1⟩ ⟨2013, 3, 2⟩
      (by decide)).2 ⟨2013, 3, 1⟩ ⟨2013, 3, 2⟩ (by decide) (by decide)⟩

/-- C9: an inverted date range (`start > end`), or a range lying
entirely outside the dataset's span, yields an empty filter result;
the filter is a total function, so no failure occurs. -/
theorem filter_invalid_range_empty (ds : List Row) (a b : Date) :
    (a.ble b = false → filterByDate ds a b = []) ∧
    (∀ hi, maxDate ds = some hi → a.ble hi = false →
        filterByDate ds a b = []) ∧
    (∀ lo, minDate ds = some lo → lo.ble b = false →
        filterByDate ds a b = []) := by
  refine ⟨?_, ?_, ?_⟩
  · intro hab
    rw [filterByDate, List.filter_eq_nil_iff]
    intro r _ hcon
    rw [Bool.and_eq_true] at hcon
    rw [Date.ble_trans hcon.1 hcon.2] at hab
    cases hab
  · intro hi hhi hahi
    rw [filterByDate, List.filter_eq_nil_iff]
    intro r hr hcon
    rw [Bool.and_eq_true] at hcon
    rw [Date.ble_trans hcon.1 (ble_maxDate hhi r hr)] at hahi
    cases hahi
  · intro lo hlo hlob
    rw [filterByDate, List.filter_eq_nil_iff]
    intro r hr hcon
    rw [Bool.and_eq_true] at hcon
    rw [Date.ble_trans (minDate_ble hlo r hr) hcon.2] at hlob
    cases hlob

/-- Witness for C9 at a concrete inverted range. -/
theorem filter_invalid_range_empty_witness :
    Date.ble ⟨2013, 3, 2⟩ ⟨2013, 3, 1⟩ = false ∧
    filterByDate exRows ⟨2013, 3, 2⟩ ⟨2013, 3, 1⟩ = [] :=
  ⟨by decide, (filter_invalid_range_empty exRows ⟨2013, 3, 2⟩ ⟨2013, 3, 1⟩).1
    (by decide)⟩

/-- C5: the daily-mean view has exactly one entry per distinct
calendar date present in the filtered data, in ascending date order,
and the per-day row counts sum to the total filtered row count. -/
theorem daily_mean_keys (v : Var) (rows : List Row) :
    ((daily_mean v rows).map Prod.fst).Nodup ∧
    List.Sorted dateLE ((daily_mean v rows).map Prod.fst) ∧
    (∀ d, d ∈ (daily_mean v rows).map Prod.fst ↔ ∃ r ∈ rows, r.date = d) ∧
    (((daily_mean v rows).map Prod.fst).map
        (fun d => (dateGroup rows d).length)).sum = rows.length := by
  have hkeys : (daily_mean v rows).map Prod.fst = sortedDatesOf rows := by
    rw [daily_mean, List.map_map]
    exact List.map_id _
  rw [hkeys]
  exact ⟨nodup_sortedDatesOf rows, sorted_sortedDatesOf rows,
    fun _ => mem_sortedDatesOf, sum_group_lengths rows⟩

/-- Witness for C5 at a concrete dataset. -/
theorem daily_mean_keys_witness :
    ((daily_mean Var.CO exRows).map Prod.fst).Nodup ∧
    List.Sorted dateLE ((daily_mean Var.CO exRows).map Prod.fst) ∧
    (∀ d, d ∈ (daily_mean Var.CO exRows).map Prod.fst ↔
        ∃ r ∈ exRows, r.date = d) ∧
    (((daily_mean Var.CO exRows).map Prod.fst).map
        (fun d => (dateGroup exRows d).length)).sum = exRows.length :=
  daily_mean_keys Var.CO exRows

/-- C6: the hourly distinct-count view groups rows by the source
`hour` field, buckets appear exactly for the hours that occur in the
data (zero-row buckets are omitted), each bucket counts the distinct
non-missing values of the variable, and on the spec's worked example
(`hour` values `[0, 0, 1]`, `CO` values `[1, 3, 5]`) the result is
`{0 ↦ 2, 1 ↦ 1}`. -/
theorem hourly_distinct_count_spec :
    (∀ (v : Var) (rows : List Row) (h : ℕ),
        (∃ c, (h, c) ∈ hourly_distinct_count v rows) ↔
          ∃ r ∈ rows, r.hour = h) ∧
    (∀ (v : Var) (rows : List Row) (h c : ℕ),
        (h, c) ∈ hourly_distinct_count v rows →
          c = ((colVals v (hourGroup rows h)).dedup).length) ∧
    hourly_distinct_count Var.CO exRows = [(0, 2), (1, 1)] := by
  refine ⟨?_, ?_, by decide⟩
  · intro v rows h
    constructor
    · rintro ⟨c, hc⟩
      rw [hourly_distinct_count] at hc
      exact mem_sortedHoursOf.mp (mem_map_pair.mp hc).1
    · intro hr
      exact ⟨_, List.mem_map.mpr ⟨h, mem_sortedHoursOf.mpr hr, rfl⟩⟩
  · intro v rows h c hc
    rw [hourly_distinct_count] at hc
    exact (mem_map_pair.mp hc).2

/-- Witness for C6 (its general part applied at a concrete bucket). -/
theorem hourly_distinct_count_spec_witness :
    (0, 2) ∈ hourly_distinct_count Var.CO exRows ∧
    2 = ((colVals Var.CO (hourGroup exRows 0)).dedup).length :=
  ⟨by decide, hourly_distinct_count_spec.2.1 Var.CO exRows 0 2 (by decide)⟩

/-- C7: every defined value of the hourly-mean view lies between the
minimum and the maximum of the variable within its hour bucket, and an
hour absent from the filtered data is absent from the result. -/
theorem hourly_mean_bounds (v : Var) (rows : List Row) :
    (∀ h m, (h, some m) ∈ hourly_mean v rows →
        ∃ lo hi, minQ (colVals v (hourGroup rows h)) = some lo ∧
          maxQ (colVals v (hourGroup rows h)) = some hi ∧
          lo ≤ m ∧ m ≤ hi) ∧
    (∀ h, (¬ ∃ r ∈ rows, r.hour = h) →
        ∀ x, (h, x) ∉ hourly_mean v rows) := by
  constructor
  · intro h m hm
    rw [hourly_mean] at hm
    have hmean : meanQ (colVals v (hourGroup rows h)) = some m :=
      (mem_map_pair.mp hm).2.symm
    have hne : colVals v (hourGroup rows h) ≠ [] := by
      intro hnil
      rw [meanQ, hnil] at hmean
      simp at hmean
    obtain ⟨lo, hlo⟩ : ∃ lo, minQ (colVals v (hourGroup rows h)) = some lo := by
      cases hxs : minQ (colVals v (hourGroup rows h)) with
      | none => exact absurd (minQ_eq_none.mp hxs) hne
      | some lo => exact ⟨lo, rfl⟩
    obtain ⟨hi, hhi⟩ : ∃ hi, maxQ (colVals v (hourGroup rows h)) = some hi := by
      cases hxs : maxQ (colVals v (hourGroup rows h)) with
      | none => exact absurd (maxQ_eq_none.mp hxs) hne
      | some hi => exact ⟨hi, rfl⟩
    have hb := meanQ_bounds hmean (minQ_le hlo) (le_maxQ hhi)
    exact ⟨lo, hi, hlo, hhi, hb.1, hb.2⟩
  · intro h hno x hx
    rw [hourly_mean] at hx
    exact hno (mem_sortedHoursOf.mp (mem_map_pair.mp hx).1)

/-- Witness for C7 at a concrete bucket: the mean `2` of the CO values
`[1, 3]` of hour `0` lies between their minimum and maximum. -/
theorem hourly_mean_bounds_witness :
    ∃ lo hi, minQ (colVals Var.CO (hourGroup exRows 0)) = some lo ∧
      maxQ (colVals Var.CO (hourGroup exRows 0)) = some hi ∧
      lo ≤ 2 ∧ (2 : ℚ) ≤ hi :=
  (hourly_mean_bounds Var.CO exRows).1 0 2 (by
    have h1 : colVals Var.CO (hourGroup exRows 0) = [1, 3] := by decide
    have h2 : meanQ (colVals Var.CO (hourGroup exRows 0)) = some 2 := by
      rw [h1]; norm_num [meanQ]
    have h0 : (0 : ℕ) ∈ sortedHoursOf exRows := by decide
    rw [hourly_mean]
    exact List.mem_map.mpr ⟨0, h0, by rw [h2]⟩)

/-- C3 is refuted on the identification point: the schema error is one
fixed message, so loading with the first table malformed produces
exactly the same error value as loading with the second table
malformed — the error cannot identify which dataset is at fault. -/
theorem load_error_not_identifying :
    load_data noHourTable goodTable = load_data goodTable noHourTable ∧
    load_data noHourTable goodTable = Except.error schemaErrorMsg := by
  exact ⟨rfl, rfl⟩

/-- C3 (amended): if a required temporal column is absent from either
input table, the load fails with the fixed schema-error message (which
does not say which dataset is malformed) and no downstream computation
— filtering, aggregation or rendering — runs afterward. -/
theorem load_missing_column_halts (co temp : RawTable) (a b : Date)
    (h : hasRequired co = false ∨ hasRequired temp = false) :
    runDashboard co temp a b = Except.error schemaErrorMsg := by
  rcases h with h | h
  · simp [runDashboard, load_data, h]
  · by_cases hco : hasRequired co = true <;>
      simp [runDashboard, load_data, h, hco]

/-- Witness for the amended C3 at a concrete malformed table. -/
theorem load_missing_column_halts_witness :
    (hasRequired goodTable = false ∨ hasRequired noHourTable = false) ∧
    runDashboard goodTable noHourTable ⟨2013, 3, 1⟩ ⟨2013, 3, 2⟩ =
      Except.error schemaErrorMsg :=
  ⟨Or.inr (by decide),
   load_missing_column_halts goodTable noHourTable ⟨2013, 3, 1⟩ ⟨2013, 3, 2⟩
     (Or.inr (by decide))⟩

/-- The displayed value of `f"{x:.2f}"` differs from the exact value
by at most half of the last displayed digit. -/
theorem round2_abs_le (q : ℚ) : |round2 q - q| ≤ 1 / 200 := by
  have h := abs_sub_round (q * 100)
  rw [abs_sub_comm] at h
  rw [round2]
  have e : (round (q * 100) : ℚ) / 100 - q
      = ((round (q * 100) : ℚ) - q * 100) / 100 := by ring
  rw [e, abs_div]
  have h100 : |(100 : ℚ)| = 100 := by norm_num
  rw [h100]
  linarith

/-- `round2` lands on a multiple of `1 / 100`: two decimal places. -/
theorem round2_two_decimals (q : ℚ) : (round2 q * 100).den = 1 := by
  rw [round2, div_mul_cancel₀]
  · exact Rat.den_intCast _
  · norm_num

/-- C8 is refuted on the temperature metrics: for a filtered
temperature dataset whose single `TEMP` value is `1.234`, the
displayed minimum is the rounded `1.23`, not the native value — TEMP
min/max are formatted `:.2f` in the code, unlike CO min/max. -/
theorem temp_min_rounded_cex :
    (displayedStats [] [tempRow]).tempMin = some (123 / 100) ∧
    minQ (colVals Var.TEMP [tempRow]) = some (617 / 500) ∧
    (displayedStats [] [tempRow]).tempMin
      ≠ minQ (colVals Var.TEMP [tempRow]) := by
  have hmin : minQ (colVals Var.TEMP [tempRow]) = some (617 / 500) := rfl
  have hr : round2 (617 / 500) = 123 / 100 := by
    rw [round2, round_eq]
    norm_num
  have hd : (displayedStats [] [tempRow]).tempMin = some (123 / 100) := by
    simp only [displayedStats, hmin, Option.map_some']
    rw [hr]
  refine ⟨hd, hmin, ?_⟩
  rw [hd, hmin]
  intro hcon
  simp only [Option.some.injEq] at hcon
  norm_num at hcon

/-- C8 (amended): the CO minimum and maximum are displayed at native
precision, while the CO mean and all three temperature statistics are
displayed rounded to two decimals; the rounding moves a value by at
most `1/200` and lands on a multiple of `1/100`. -/
theorem displayed_rounding (fco ftemp : List Row) :
    (displayedStats fco ftemp).coMax = (summary Var.CO fco).max ∧
    (displayedStats fco ftemp).coMin = (summary Var.CO fco).min ∧
    (∀ q, (summary Var.CO fco).mean = some q →
        (displayedStats fco ftemp).coMean = some (round2 q)) ∧
    (∀ q, (summary Var.TEMP ftemp).mean = some q →
        (displayedStats fco ftemp).tempMean = some (round2 q)) ∧
    (∀ q, (summary Var.TEMP ftemp).max = some q →
        (displayedStats fco ftemp).tempMax = some (round2 q)) ∧
    (∀ q, (summary Var.TEMP ftemp).min = some q →
        (displayedStats fco ftemp).tempMin = some (round2 q)) ∧
    (∀ q : ℚ, |round2 q - q| ≤ 1 / 200 ∧ (round2 q * 100).den = 1) := by
  refine ⟨rfl, rfl, ?_, ?_, ?_, ?_,
    fun q => ⟨round2_abs_le q, round2_two_decimals q⟩⟩ <;>
    intro q hq <;>
    simp only [summary] at hq <;>
    simp only [displayedStats, hq, Option.map_some']

/-- Witness for the amended C8 at a concrete filtered dataset. -/
theorem displayed_rounding_witness :
    (summary Var.CO exRows).mean = some 3 ∧
    (displayedStats exRows exRows).coMean = some (round2 3) := by
  have hm : (summary Var.CO exRows).mean = some 3 := by
    have h1 : colVals Var.CO exRows = [1, 3, 5] := by decide
    simp only [summary]
    rw [h1]
    norm_num [meanQ]
  exact ⟨hm, (displayed_rounding exRows exRows).2.2.1 3 hm⟩

/-- C10: the date picker's default range and selectable bounds are
functions of the CO dataset alone; consequently a temperature row
whose date lies outside the CO span is excluded by the filter for
every selectable range. -/
theorem picker_bounds_co_only :
    (∀ co t1 t2 : List Row, pickerBounds co t1 = pickerBounds co t2) ∧
    (∀ (co temp : List Row) (lo hi a b : Date),
        pickerBounds co temp = some (lo, hi) →
        lo.ble a = true → b.ble hi = true →
        ∀ r ∈ temp, ¬(lo.ble r.date = true ∧ (r.date).ble hi = true) →
        r ∉ filterByDate temp a b) := by
  constructor
  · intro co t1 t2
    rfl
  · intro co temp lo hi a b _ hloa hbhi r _ hout hmem
    have hm := mem_filterByDate.mp hmem
    exact hout ⟨Date.ble_trans hloa hm.2.1, Date.ble_trans hm.2.2 hbhi⟩

/-- Witness for C10: a temperature row dated after the CO span is not
selectable and is filtered away at the full default range. -/
theorem picker_bounds_co_only_witness :
    pickerBounds exRows [outRow] = some (⟨2013, 3, 1⟩, ⟨2013, 3, 2⟩) ∧
    outRow ∉ filterByDate [outRow] ⟨2013, 3, 1⟩ ⟨2013, 3, 2⟩ :=
  ⟨by decide,
   picker_bounds_co_only.2 exRows [outRow] ⟨2013, 3, 1⟩ ⟨2013, 3, 2⟩
     ⟨2013, 3, 1⟩ ⟨2013, 3, 2⟩ (by decide) (by decide) (by decide)
     outRow (by decide) (by decide)⟩

end Dashboard
